import Mathlib

/-!
Verification of the fake-news-detection pipeline
(src/fake_news_detection.ipynb).

The bespoke logic of the repository is the text cleaner `clean_text` and a
thin orchestration layer (`TextProcessor` / `Model` with lazily cached
dataframe, split and vectorizer).  Strings are modelled as `List Char`
(`String.data`); the regex-based helpers are translated into structurally
recursive scanners that implement exactly the left-to-right, non-overlapping
semantics of Python's `re.sub` / `re.split` / `str.split` on the concrete
patterns used by the source.  The two external text resources consulted by
the cleaner — the NLTK English stopword list (a fixed list that
`stopwords.words("english")` loads) and the WordNet lemmatization dictionary
— enter the model as a hard-coded list and as a function parameter
`lemma : String → String` respectively.  Character classes follow Python's
ASCII reading of `\s`, `\w` and `\d`.
-/

/-- Python whitespace (`\s`, `str.split()`, `str.strip()`): space, tab,
newline, carriage return, vertical tab, form feed. -/
def pySpace (c : Char) : Bool :=
  c == ' ' || c == '\t' || c == '\n' || c == '\r' || c == '\x0b' || c == '\x0c'

/-- Python word character `\w` (ASCII reading): letters, digits, underscore. -/
def isWordChar (c : Char) : Bool :=
  c.isAlphanum || c == '_'

/-- Modelled from the spec: the fixed standard English stopword list that the
external NLP library resource `stopwords.words("english")` returns (the
loading itself is a library call, not repository code). -/
def nltk_english_stopwords : List String :=
  ["i", "me", "my", "myself", "we", "our", "ours", "ourselves", "you",
   "you're", "you've", "you'll", "you'd", "your", "yours", "yourself",
   "yourselves", "he", "him", "his", "himself", "she", "she's", "her",
   "hers", "herself", "it", "it's", "its", "itself", "they", "them",
   "their", "theirs", "themselves", "what", "which", "who", "whom",
   "this", "that", "that'll", "these", "those", "am", "is", "are", "was",
   "were", "be", "been", "being", "have", "has", "had", "having", "do",
   "does", "did", "doing", "a", "an", "the", "and", "but", "if", "or",
   "because", "as", "until", "while", "of", "at", "by", "for", "with",
   "about", "against", "between", "into", "through", "during", "before",
   "after", "above", "below", "to", "from", "up", "down", "in", "out",
   "on", "off", "over", "under", "again", "further", "then", "once",
   "here", "there", "when", "where", "why", "how", "all", "any", "both",
   "each", "few", "more", "most", "other", "some", "such", "no", "nor",
   "not", "only", "own", "same", "so", "than", "too", "very", "s", "t",
   "can", "will", "just", "don", "don't", "should", "should've", "now",
   "d", "ll", "m", "o", "re", "ve", "y", "ain", "aren", "aren't",
   "couldn", "couldn't", "didn", "didn't", "doesn", "doesn't", "hadn",
   "hadn't", "hasn", "hasn't", "haven", "haven't", "isn", "isn't", "ma",
   "mightn", "mightn't", "mustn", "mustn't", "needn", "needn't", "shan",
   "shan't", "shouldn", "shouldn't", "wasn", "wasn't", "weren",
   "weren't", "won", "won't", "wouldn", "wouldn't"]

/-- Python's `string.punctuation` (32 ASCII characters). -/
def string_punctuation : List Char :=
  ['!', '"', '#', '$', '%', '&', '\'', '(', ')', '*', '+', ',', '-', '.',
   '/', ':', ';', '<', '=', '>', '?', '@', '[', '\\', ']', '^', '_',
   Char.ofNat 96, Char.ofNat 123, '|', Char.ofNat 125, '~']

/-- `get_all_punctuations`: the English stopword set extended with every
`string.punctuation` character as a one-character string. -/
def get_all_punctuations : List String :=
  nltk_english_stopwords ++ string_punctuation.map (fun c => String.mk [c])

/-- The `_punctuations` list inside `remove_stopwords` (order as in the
source; "--" is its only multi-character entry, and "#" appears twice). -/
def punctuations_repl : List String :=
  ["\\", String.mk [Char.ofNat 96], "*", "_", String.mk [Char.ofNat 123],
   String.mk [Char.ofNat 125], "[", "]", "(", ")", "/", "“", "”", "’",
   "‘", ">", "@", "#", "+", "-", "--", "?", "%", "#", "£", ".", ":",
   ";", ",", "!", "$", "'"]

/-- Whether `c` can begin an HTML tag after `<` (letter, `/`, `!`, `?`). -/
def isTagStart (c : Char) : Bool :=
  c.isAlpha || c == '/' || c == '!' || c == '?'

/-- Modelled from the spec: `strip_html` delegates to the external HTML
parser (`BeautifulSoup(text, "html.parser").get_text()`), which removes
markup tags and keeps the inner text; a `<` that does not begin a tag is
literal text, and an unclosed tag swallows the remainder.  The Boolean mode
is true while inside a tag. -/
def stripHtmlGo : Bool → List Char → List Char
  | true, [] => []
  | true, c :: cs => if c == '>' then stripHtmlGo false cs else stripHtmlGo true cs
  | false, [] => []
  | false, c :: cs =>
    if c == '<' then
      match cs with
      | [] => ['<']
      | d :: _ => if isTagStart d then stripHtmlGo true cs else '<' :: stripHtmlGo false cs
    else c :: stripHtmlGo false cs

/-- `strip_html(text)` on character lists. -/
def strip_html (l : List Char) : List Char := stripHtmlGo false l

/-- Whether the regex `http\S+` matches at the head of the list: the four
characters `http` followed by at least one non-whitespace character. -/
def isUrlStart : List Char → Bool
  | c1 :: c2 :: c3 :: c4 :: c5 :: _ =>
    c1 == 'h' && c2 == 't' && c3 == 't' && c4 == 'p' && !pySpace c5
  | _ => false

/-- Scanner for `re.sub(r'http\S+', '', text)`.  In skip mode (`true`) the
characters of a matched URL are dropped until whitespace; in normal mode a
match switches to skip mode, otherwise the character is kept. -/
def removeUrlsGo : Bool → List Char → List Char
  | _, [] => []
  | true, c :: cs => if pySpace c then c :: removeUrlsGo false cs else removeUrlsGo true cs
  | false, c :: cs =>
    if isUrlStart (c :: cs) then removeUrlsGo true cs else c :: removeUrlsGo false cs

/-- `remove_urls(text)`: `re.sub(r'http\S+', '', text)`. -/
def remove_urls (l : List Char) : List Char := removeUrlsGo false l

/-- Scanner for `re.sub('\[[^]]*\]', '', text)`.  With mode `none` the scan
is outside any candidate span; with mode `some acc`, `acc` holds (reversed)
the characters read since an opening `[`.  A closing `]` deletes the whole
span; if the input ends with the span still open, the regex never matched
there (nor can it match later, as no `]` remains), so the buffered text is
restored verbatim. -/
def removeBrGo : Option (List Char) → List Char → List Char
  | none, [] => []
  | some acc, [] => '[' :: acc.reverse
  | none, c :: cs =>
    if c == '[' then removeBrGo (some []) cs else c :: removeBrGo none cs
  | some acc, c :: cs =>
    if c == ']' then removeBrGo none cs else removeBrGo (some (c :: acc)) cs

/-- `remove_between_square_brackets(text)`: `re.sub('\[[^]]*\]', '', text)`. -/
def remove_between_square_brackets (l : List Char) : List Char := removeBrGo none l

/-- Emitting a completed `\w`-run for `remove_numbers`: a run containing a
digit is the regex match `\w*\d\w*` and is deleted; otherwise it is kept. -/
def finishRun (acc rest : List Char) : List Char :=
  if acc.any Char.isDigit then rest else acc ++ rest

/-- Scanner for `re.sub('\w*\d\w*', '', text)`: maximal runs of word
characters are collected (mode `some acc`) and deleted exactly when they
contain a digit, which is the match set of `\w*\d\w*` under left-to-right
greedy matching. -/
def removeNumGo : Option (List Char) → List Char → List Char
  | none, [] => []
  | some acc, [] => finishRun acc []
  | none, c :: cs =>
    if isWordChar c then removeNumGo (some [c]) cs else c :: removeNumGo none cs
  | some acc, c :: cs =>
    if isWordChar c then removeNumGo (some (acc ++ [c])) cs
    else finishRun acc (c :: removeNumGo none cs)

/-- `remove_numbers(text)`: `re.sub('\w*\d\w*', '', text)`. -/
def remove_numbers (l : List Char) : List Char := removeNumGo none l

/-- Python `str.strip()`: drop leading and trailing whitespace. -/
def pyStrip (l : List Char) : List Char :=
  ((l.dropWhile pySpace).reverse.dropWhile pySpace).reverse

/-- Python `sep.join(tokens)` on character lists. -/
def joinSep (sep : List Char) : List (List Char) → List Char
  | [] => []
  | [t] => t
  | t :: t' :: ts => t ++ sep ++ joinSep sep (t' :: ts)

/-- Scanner for Python `str.split()` (split on whitespace runs, no empty
tokens).  Mode `some acc` collects the current token. -/
def splitWsGo : Option (List Char) → List Char → List (List Char)
  | none, [] => []
  | some acc, [] => [acc]
  | none, c :: cs =>
    if pySpace c then splitWsGo none cs else splitWsGo (some [c]) cs
  | some acc, c :: cs =>
    if pySpace c then acc :: splitWsGo none cs else splitWsGo (some (acc ++ [c])) cs

/-- `text.split()` (whitespace-delimited runs of a string). -/
def pySplitWs (l : List Char) : List (List Char) := splitWsGo none l

/-- Whether `pat` is an initial segment of `l`. -/
def startsWithSeq : List Char → List Char → Bool
  | [], _ => true
  | _ :: _, [] => false
  | p :: ps, c :: cs => p == c && startsWithSeq ps cs

/-- Whether `pat` occurs contiguously in `l` (Python `pat in s`). -/
def containsSeq (pat : List Char) : List Char → Bool
  | [] => startsWithSeq pat []
  | c :: cs => startsWithSeq pat (c :: cs) || containsSeq pat cs

/-- `s.replace(p, " ")` for a one-character pattern. -/
def replace1 (p : Char) (l : List Char) : List Char :=
  l.map (fun c => if c == p then ' ' else c)

/-- `s.replace(pq, " ")` for a two-character pattern, replacing
non-overlapping occurrences left to right with a single space. -/
def replace2 (p q : Char) : List Char → List Char
  | [] => []
  | [c] => [c]
  | c :: d :: cs =>
    if c == p && d == q then ' ' :: replace2 p q cs
    else c :: replace2 p q (d :: cs)

/-- Python `s.replace(pat, " ")` for the patterns occurring in
`_punctuations`, whose entries are all one or two characters long. -/
def pyReplace (pat l : List Char) : List Char :=
  match pat with
  | [p] => replace1 p l
  | [p, q] => replace2 p q l
  | _ => l

/-- The inner loop of `remove_stopwords`: for each `ch` in `_punctuations`,
`if ch in i: i = i.replace(ch, " ")`. -/
def applyPunct (tok : List Char) : List Char :=
  punctuations_repl.foldl
    (fun t p => if containsSeq p.data t then pyReplace p.data t else t) tok

/-- The membership test of `remove_stopwords`:
`i.strip().lower() not in stops`. -/
def keepToken (tok : List Char) : Bool :=
  !(get_all_punctuations.contains (String.mk ((pyStrip tok).map Char.toLower)))

/-- `remove_stopwords(text)`: split on whitespace; drop a token whose
stripped lowercase form is a stopword or a punctuation character; in the
surviving tokens replace each `_punctuations` entry by a space, strip, and
join everything with single spaces (an all-punctuation token can survive as
the empty string). -/
def remove_stopwords (l : List Char) : List Char :=
  joinSep [' ']
    (((pySplitWs l).filter keepToken).map (fun i => pyStrip (applyPunct i)))

/-- The character class of `re.sub('[‘’“”…]', '', text)`. -/
def accent_chars : List Char := ['‘', '’', '“', '”', '…']

/-- `remove_accent_signs(text)`: `re.sub('[‘’“”…]', '', text)`. -/
def remove_accent_signs (l : List Char) : List Char :=
  l.filter (fun c => !(accent_chars.contains c))

/-- `remove_new_lines(text)`: `re.sub('\n', '', text)`. -/
def remove_new_lines (l : List Char) : List Char :=
  l.filter (fun c => !(c == '\n'))

/-- Scanner for `re.split("\W+", text)`: the word-character runs of the
string, with an empty token at either boundary when the string starts or
ends with a non-word character (and `[""]` for the empty string).  Mode
`some acc` collects the current token; mode `none` is inside a separator
run. -/
def splitWGo : Option (List Char) → List Char → List (List Char)
  | some acc, [] => [acc]
  | none, [] => [[]]
  | some acc, c :: cs =>
    if isWordChar c then splitWGo (some (acc ++ [c])) cs else acc :: splitWGo none cs
  | none, c :: cs =>
    if isWordChar c then splitWGo (some [c]) cs else splitWGo none cs

/-- `tokenize(text)`: `re.split("\W+", text)`. -/
def tokenize (l : List Char) : List (List Char) := splitWGo (some []) l

/-- `lemmatizer(text)`: keep the tokens that are not English stopwords and
map each through the WordNet lemmatizer, supplied as the function
parameter `wl`. -/
def lemmatizer (wl : String → String) (toks : List (List Char)) : List (List Char) :=
  (toks.filter (fun w => !(nltk_english_stopwords.contains (String.mk w)))).map
    (fun w => (wl (String.mk w)).data)

/-- `clean_text(text)`: the full cleaning pipeline of the source, in its
exact order, parameterized by the lemmatization dictionary `wl`. -/
def clean_text (wl : String → String) (text : String) : String :=
  let t1 := strip_html text.data
  let t2 := t1.map Char.toLower
  let t3 := remove_between_square_brackets t2
  let t4 := remove_urls t3
  let t5 := remove_stopwords t4
  let t6 := remove_numbers t5
  let t7 := remove_accent_signs t6
  let t8 := remove_new_lines t7
  let toks := tokenize t8
  String.mk (joinSep [' '] (lemmatizer wl toks))

/-- The whitespace-delimited runs of a string, as strings. -/
def wsTokens (s : String) : List String :=
  (pySplitWs s.data).map String.mk

/-- The regex `http\S+` matches at some position of the list. -/
def hasUrl : List Char → Bool
  | [] => false
  | c :: cs => isUrlStart (c :: cs) || hasUrl cs

/-!
The orchestration layer.  A dataframe row after `create_data_frame` has the
columns `text` and `category` (`title`, `subject`, `date` are dropped).  The
unseeded shuffle `df.sample(frac=1)` draws a fresh permutation from the
ambient random state on every call; it enters the model as an explicit
function argument (`shuffle`, or a stream of such draws), since it is not
determined by the pipeline's inputs or by any seed in the source.
-/

/-- A dataframe row: the `text` column and the binary `category` label. -/
structure Row where
  text : String
  category : Nat
deriving DecidableEq, Repr

/-- The concatenated labeled dataframe of `create_data_frame` before the
shuffle: the genuine corpus tagged `category = 1`, then the fabricated
corpus tagged `category = 0`. -/
def assemble_df (trueTexts fakeTexts : List String) : List Row :=
  trueTexts.map (fun t => ⟨t, 1⟩) ++ fakeTexts.map (fun t => ⟨t, 0⟩)

/-- `TextProcessor.create_data_frame`: tag, concatenate, shuffle with
`df.sample(frac=1)` (the permutation `shuffle` drawn from the ambient
random state), and keep the first `sampleSize` rows (`head`). -/
def create_data_frame (trueTexts fakeTexts : List String)
    (shuffle : List Row → List Row) (sampleSize : Nat) : List Row :=
  (shuffle (assemble_df trueTexts fakeTexts)).take sampleSize

/-- Modelled from the spec: `TrainTestSplit.__init__` delegates to the
external `sklearn.model_selection.train_test_split(text, category,
train_size=.8, stratify=category, random_state=19)` — a deterministic
stratified 80/20 partition of the rows of its input dataframe. -/
def train_test_split (rows : List Row) : List Row × List Row :=
  let ones := rows.filter (fun r => r.category == 1)
  let zeros := rows.filter (fun r => !(r.category == 1))
  let k1 := 4 * ones.length / 5
  let k0 := 4 * zeros.length / 5
  (ones.take k1 ++ zeros.take k0, ones.drop k1 ++ zeros.drop k0)

/-- The two members of the `VectorizerType` enum, together with `badSel` for
any other value a dynamically typed caller could pass for
`vectorizer_type`. -/
inductive VectorizerSel
  | Tfidf
  | Count
  | badSel
deriving DecidableEq, Repr

/-- The two vectorizer objects `Vectorize.__init__` can construct. -/
inductive SkVectorizer
  | tfidfVectorizer
  | countVectorizer
deriving DecidableEq, Repr

/-- The selector dispatch of `Vectorize.__init__`: the `if` / `elif` chain
over `VectorizerType`, whose `else` branch raises
`RuntimeError("Unable to determine the vectorizer type.")`. -/
def vectorize_init_choose : VectorizerSel → Except String SkVectorizer
  | VectorizerSel.Tfidf => Except.ok SkVectorizer.tfidfVectorizer
  | VectorizerSel.Count => Except.ok SkVectorizer.countVectorizer
  | VectorizerSel.badSel => Except.error "Unable to determine the vectorizer type."

/-- The four members of the `ModelType` enum, together with `badSel` for any
other value a dynamically typed caller could pass for `model_type`. -/
inductive ModelSel
  | nb
  | lr
  | pa
  | dt
  | badSel
deriving DecidableEq, Repr

/-- The four classifier objects `create_model` can construct. -/
inductive SkModel
  | multinomialNB
  | logisticRegression
  | passiveAggressive
  | decisionTree
deriving DecidableEq, Repr

/-- `create_model(model_type)`: an `if` / `elif` chain with no `else`
branch, so a selector outside the four known members falls through and the
function returns `None` — it does not raise. -/
def create_model : ModelSel → Option SkModel
  | ModelSel.nb => some SkModel.multinomialNB
  | ModelSel.lr => some SkModel.logisticRegression
  | ModelSel.pa => some SkModel.passiveAggressive
  | ModelSel.dt => some SkModel.decisionTree
  | ModelSel.badSel => none

/-- The externally observable steps of one `Model` construction-plus-`run`,
in program order. -/
inductive Step
  | readCsvTrue
  | readCsvFake
  | createModelStep
  | sampleStep
  | cleanStep
  | splitStep
  | vectorizeStep
  | fitStep
  | predictStep
  | reportStep
deriving DecidableEq, Repr

/-- The trace of `Model(...)` followed by `Model.run()`: the steps executed,
and the error that aborts the run, if any.

`Model.__init__` reads both CSVs and calls `create_model` (which never
raises).  `run` calls `pre_processor` — a direct `create_data_frame()` call
whose result is discarded plus `cleanup_text`, whose `self.df` access
samples again and caches — then `fit`, which executes
`self.model.fit(self.vectorize.train, self.split.category_train)`.  Python
resolves the callee `self.model.fit` before evaluating the arguments, so
when `create_model` returned `None` the run aborts right there with an
`AttributeError` on `None` — before `TrainTestSplit` or `Vectorize` is ever
constructed, and before any vectorizer `RuntimeError` could fire.  With a
supported model, the first argument's `self.vectorize` access builds
`TrainTestSplit` (the `split` property) and then runs `Vectorize.__init__`,
where an unsupported vectorizer selector raises its `RuntimeError`.  Only
on the fully supported path do the fit, score and report steps run
(`predict` is invoked once for the cached accuracy score and once for the
classification report). -/
def run_model_steps (vt : VectorizerSel) (mt : ModelSel) : List Step × Option String :=
  let initSteps := [Step.readCsvTrue, Step.readCsvFake, Step.createModelStep]
  let preSteps := [Step.sampleStep, Step.sampleStep, Step.cleanStep]
  match create_model mt with
  | none =>
    (initSteps ++ preSteps,
     some "AttributeError: NoneType object has no attribute fit")
  | some _ =>
    match vectorize_init_choose vt with
    | Except.error e => (initSteps ++ preSteps ++ [Step.splitStep], some e)
    | Except.ok _ =>
      (initSteps ++ preSteps ++
        [Step.splitStep, Step.vectorizeStep, Step.fitStep, Step.predictStep,
         Step.reportStep, Step.predictStep], none)

/-- The lazily cached state of a `TextProcessor` / `Model` instance: the
`_df` cache behind the `df` property, and how many shuffle permutations the
instance has drawn from the ambient random state so far. -/
structure TPState where
  cache : Option (List Row)
  draws : Nat
deriving DecidableEq, Repr

/-- The `df` property: on a cache miss it calls `create_data_frame` (drawing
the next shuffle permutation) and stores the result; on a hit it returns
the cached dataframe and draws nothing. -/
def df_get (trueTexts fakeTexts : List String) (n : Nat)
    (shuffles : Nat → List Row → List Row) : TPState → List Row × TPState
  | ⟨none, k⟩ =>
    (create_data_frame trueTexts fakeTexts (shuffles k) n,
     ⟨some (create_data_frame trueTexts fakeTexts (shuffles k) n), k + 1⟩)
  | ⟨some d, k⟩ => (d, ⟨some d, k⟩)

/-- The dataframes that one `Model.run()` works on: `pre_processor` first
calls `create_data_frame()` directly (a draw whose result is discarded),
then `cleanup_text` reads `self.df` (first property access: sample and
cache), and `TrainTestSplit` — built inside the `vectorize` property that
`fit` uses — reads `self.df` again.  Returns (dataframe seen by the text
cleanup, dataframe seen by the split/vectorizer, final state). -/
def run_df_accesses (trueTexts fakeTexts : List String) (n : Nat)
    (shuffles : Nat → List Row → List Row) : List Row × List Row × TPState :=
  let s0 : TPState := ⟨none, 0⟩
  let s1 : TPState := ⟨s0.cache, s0.draws + 1⟩
  let r2 := df_get trueTexts fakeTexts n shuffles s1
  let r3 := df_get trueTexts fakeTexts n shuffles r2.2
  (r2.1, r3.1, r3.2)

/-!
Supporting lemmas.
-/

theorem beq_h_false_of_pySpace {c : Char} (h : pySpace c = true) : (c == 'h') = false := by
  cases hc : c == 'h' with
  | false => rfl
  | true =>
    have : c = 'h' := by simpa using hc
    subst this
    exact absurd h (by decide)

theorem isUrlStart_cons_space {c : Char} (l : List Char) (h : pySpace c = true) :
    isUrlStart (c :: l) = false := by
  match l with
  | [] => rfl
  | [_] => rfl
  | [_, _] => rfl
  | [_, _, _] => rfl
  | _ :: _ :: _ :: _ :: _ => simp [isUrlStart, beq_h_false_of_pySpace h]

theorem removeUrlsGo_true_head :
    ∀ (l : List Char) (x : Char) (xs : List Char),
      removeUrlsGo true l = x :: xs → pySpace x = true := by
  intro l
  induction l with
  | nil => intro x xs h; simp [removeUrlsGo] at h
  | cons c cs ih =>
    intro x xs h
    simp only [removeUrlsGo] at h
    split at h
    · cases h; assumption
    · exact ih _ _ h

theorem removeUrlsGo_false_head :
    ∀ (l : List Char) (x : Char) (xs : List Char),
      removeUrlsGo false l = x :: xs →
      pySpace x = true ∨ ∃ t, l = x :: t ∧ xs = removeUrlsGo false t := by
  intro l x xs h
  match l with
  | [] => simp [removeUrlsGo] at h
  | c :: cs =>
    simp only [removeUrlsGo] at h
    split at h
    · exact Or.inl (removeUrlsGo_true_head _ _ _ h)
    · cases h
      exact Or.inr ⟨cs, rfl, rfl⟩

theorem isUrlStart_cons_removeUrlsGo {c : Char} {cs : List Char}
    (hns : isUrlStart (c :: cs) = false) :
    isUrlStart (c :: removeUrlsGo false cs) = false := by
  cases hG : removeUrlsGo false cs with
  | nil => rfl
  | cons g2 r2 =>
    cases r2 with
    | nil => rfl
    | cons g3 r3 =>
      cases r3 with
      | nil => rfl
      | cons g4 r4 =>
        cases r4 with
        | nil => rfl
        | cons g5 r5 =>
          cases hU : isUrlStart (c :: g2 :: g3 :: g4 :: g5 :: r5) with
          | false => rfl
          | true =>
            exfalso
            simp only [isUrlStart, Bool.and_eq_true, beq_iff_eq,
              Bool.not_eq_true'] at hU
            obtain ⟨⟨⟨⟨hc, h2⟩, h3⟩, h4⟩, h5⟩ := hU
            subst hc h2 h3 h4
            rcases removeUrlsGo_false_head _ _ _ hG with hsp | ⟨t1, ht1, he1⟩
            · exact absurd hsp (by decide)
            rcases removeUrlsGo_false_head _ _ _ he1.symm with hsp | ⟨t2, ht2, he2⟩
            · exact absurd hsp (by decide)
            rcases removeUrlsGo_false_head _ _ _ he2.symm with hsp | ⟨t3, ht3, he3⟩
            · exact absurd hsp (by decide)
            rcases removeUrlsGo_false_head _ _ _ he3.symm with hsp | ⟨t4, ht4, he4⟩
            · rw [hsp] at h5; exact absurd h5 (by simp)
            subst ht4; subst ht3; subst ht2; subst ht1
            simp [isUrlStart, h5] at hns

theorem hasUrl_removeUrlsGo : ∀ (l : List Char) (m : Bool), hasUrl (removeUrlsGo m l) = false := by
  intro l
  induction l with
  | nil => intro m; cases m <;> rfl
  | cons c cs ih =>
    intro m
    cases m with
    | true =>
      simp only [removeUrlsGo]
      split
      · next hsp =>
          simp [hasUrl, isUrlStart_cons_space _ hsp, ih false]
      · exact ih true
    | false =>
      simp only [removeUrlsGo]
      split
      · exact ih true
      · next hns =>
          have hns' : isUrlStart (c :: cs) = false := by
            cases h : isUrlStart (c :: cs) with
            | false => rfl
            | true => exact absurd h hns
          simp [hasUrl, isUrlStart_cons_removeUrlsGo hns', ih false]

theorem hasUrl_remove_urls (l : List Char) : hasUrl (remove_urls l) = false :=
  hasUrl_removeUrlsGo l false

theorem splitWsGo_mem_nonspace :
    ∀ (l : List Char) (m : Option (List Char)) (t : List Char),
      t ∈ splitWsGo m l →
      (∀ acc, m = some acc → ∀ c ∈ acc, pySpace c = false) →
      ∀ c ∈ t, pySpace c = false := by
  intro l
  induction l with
  | nil =>
    intro m t ht hm
    cases m with
    | none => simp [splitWsGo] at ht
    | some acc =>
      simp [splitWsGo] at ht
      subst ht
      exact hm _ rfl
  | cons c cs ih =>
    intro m t ht hm
    cases m with
    | none =>
      simp only [splitWsGo] at ht
      split at ht
      · exact ih none t ht (by intro acc h; cases h)
      · next hsp =>
          refine ih (some [c]) t ht ?_
          intro acc h x hx
          cases h
          simp at hx
          subst hx
          simpa using hsp
    | some acc =>
      simp only [splitWsGo] at ht
      split at ht
      · rcases List.mem_cons.mp ht with h | h
        · subst h; exact hm _ rfl
        · exact ih none t h (by intro a ha; cases ha)
      · next hsp =>
          refine ih (some (acc ++ [c])) t ht ?_
          intro a ha x hx
          cases ha
          rcases List.mem_append.mp hx with h | h
          · exact hm acc rfl x h
          · simp at h; subst h; simpa using hsp

theorem splitWsGo_mem_parts :
    ∀ (l : List Char) (m : Option (List Char)) (t : List Char),
      t ∈ splitWsGo m l → ∃ u v, m.getD [] ++ l = u ++ t ++ v := by
  intro l
  induction l with
  | nil =>
    intro m t ht
    cases m with
    | none => simp [splitWsGo] at ht
    | some acc =>
      simp [splitWsGo] at ht
      subst ht
      exact ⟨[], [], by simp⟩
  | cons c cs ih =>
    intro m t ht
    cases m with
    | none =>
      simp only [splitWsGo] at ht
      split at ht
      · rcases ih none t ht with ⟨u, v, huv⟩
        simp only [Option.getD_none, List.nil_append] at huv
        exact ⟨c :: u, v, by simp [huv]⟩
      · rcases ih (some [c]) t ht with ⟨u, v, huv⟩
        exact ⟨u, v, by simpa using huv⟩
    | some acc =>
      simp only [splitWsGo] at ht
      split at ht
      · rcases List.mem_cons.mp ht with h | h
        · subst h
          exact ⟨[], c :: cs, by simp⟩
        · rcases ih none t h with ⟨u, v, huv⟩
          simp only [Option.getD_none, List.nil_append] at huv
          exact ⟨acc ++ c :: u, v, by simp [huv]⟩
      · rcases ih (some (acc ++ [c])) t ht with ⟨u, v, huv⟩
        refine ⟨u, v, ?_⟩
        simp only [Option.getD] at huv ⊢
        rw [show acc ++ c :: cs = (acc ++ [c]) ++ cs by simp]
        exact huv

theorem hasUrl_append_url :
    ∀ (u rest : List Char) (e : Char), pySpace e = false →
      hasUrl (u ++ 'h' :: 't' :: 't' :: 'p' :: e :: rest) = true := by
  intro u
  induction u with
  | nil =>
    intro rest e he
    simp [hasUrl, isUrlStart, he]
  | cons a u ih =>
    intro rest e he
    simp [hasUrl, ih rest e he]

theorem http_token_shape :
    ∀ t : List Char, startsWithSeq ['h', 't', 't', 'p'] t = true → 5 ≤ t.length →
      ∃ e t', t = 'h' :: 't' :: 't' :: 'p' :: e :: t' := by
  intro t hpre hlen
  match t with
  | [] => simp at hlen
  | [_] => simp at hlen
  | [_, _] => simp at hlen
  | [_, _, _] => simp at hlen
  | [_, _, _, _] => simp at hlen
  | c1 :: c2 :: c3 :: c4 :: e :: t' =>
    simp only [startsWithSeq, Bool.and_eq_true, beq_iff_eq] at hpre
    obtain ⟨h1, h2, h3, h4, _⟩ := hpre
    subst h1 h2 h3 h4
    exact ⟨e, t', rfl⟩

/-!
The claims.
-/

/-- C2 (counterexample): the claim "for every input string containing a
whitespace-delimited run that begins with `http`, the output of clean_text
does not contain that run" is false on the code at two concrete inputs.
First, `re.sub(r'http\S+', '', ·)` requires at least one non-whitespace
character after `http`, so the bare run "http" in "xx http yy" is not
removed and appears verbatim in the output.  Second, in
"httpz htt…pz" the run "httpz" beginning with `http` is deleted by
`remove_urls`, yet the cleaned output contains exactly that run again:
the later `remove_accent_signs` stage deletes the ellipsis character
inside the other token "htt…pz", re-creating "httpz".  (The lemmatizer is
instantiated with the identity, which agrees with the WordNet lemmatizer
on every token these inputs produce.) -/
theorem c2_counterexample :
    ("http" ∈ wsTokens "xx http yy" ∧
      wsTokens (clean_text (fun w => w) "xx http yy") = ["xx", "http", "yy"]) ∧
    ("httpz" ∈ wsTokens "httpz htt…pz" ∧
      wsTokens (clean_text (fun w => w) "httpz htt…pz") = ["httpz"]) := by
  decide

/-- C2 (amended): the URL-removal stage itself deletes every
whitespace-delimited run that begins with `http` and contains at least one
further non-whitespace character: no such run occurs among the
whitespace-delimited runs of `remove_urls`'s output (the bare four-character
run "http" is not matched by `http\S+`, and stages of `clean_text` after
`remove_urls` may re-create such a run, so the guarantee holds at the
`remove_urls` stage, not end to end). -/
theorem c2_url_token_removed :
    ∀ (s t : List Char),
      t ∈ pySplitWs s → startsWithSeq ['h', 't', 't', 'p'] t = true →
      5 ≤ t.length → t ∉ pySplitWs (remove_urls s) := by
  intro s t _hin hpre hlen hout
  obtain ⟨e, t', rfl⟩ := http_token_shape t hpre hlen
  have hns :=
    splitWsGo_mem_nonspace (remove_urls s) none _ hout (by intro acc h; cases h)
  have he : pySpace e = false := hns e (by simp)
  obtain ⟨u, v, huv⟩ := splitWsGo_mem_parts (remove_urls s) none _ hout
  simp only [Option.getD_none, List.nil_append] at huv
  have hU : hasUrl (remove_urls s) = true := by
    rw [huv, show u ++ ('h' :: 't' :: 't' :: 'p' :: e :: t') ++ v =
      u ++ 'h' :: 't' :: 't' :: 'p' :: e :: (t' ++ v) by simp]
    exact hasUrl_append_url u (t' ++ v) e he
  rw [hasUrl_remove_urls] at hU
  cases hU

/-- C2 (witness): the amended theorem applied at the concrete input
"a httpx b" and its URL run "httpx". -/
theorem c2_witness :
    ("httpx".data ∈ pySplitWs "a httpx b".data ∧
      startsWithSeq ['h', 't', 't', 'p'] "httpx".data = true ∧
      5 ≤ "httpx".data.length) ∧
    "httpx".data ∉ pySplitWs (remove_urls "a httpx b".data) :=
  ⟨⟨by decide, by decide, by decide⟩,
    c2_url_token_removed "a httpx b".data "httpx".data (by decide) (by decide)
      (by decide)⟩

theorem digit_isWordChar {c : Char} (h : c.isDigit = true) : isWordChar c = true := by
  simp [isWordChar, Char.isAlphanum, h]

theorem finishRun_no_digit (acc rest : List Char)
    (hrest : ∀ c ∈ rest, c.isDigit = false) :
    ∀ c ∈ finishRun acc rest, c.isDigit = false := by
  intro c hc
  unfold finishRun at hc
  split at hc
  · exact hrest c hc
  · next hany =>
      rcases List.mem_append.mp hc with h | h
      · have hf : acc.any Char.isDigit = false := by
          cases hx : acc.any Char.isDigit with
          | false => rfl
          | true => exact absurd hx hany
        cases hd : c.isDigit with
        | false => rfl
        | true => exact absurd (List.any_of_mem h hd) (by simp [hf])
      · exact hrest c h

theorem removeNumGo_no_digit :
    ∀ (l : List Char) (m : Option (List Char)),
      ∀ c ∈ removeNumGo m l, c.isDigit = false := by
  intro l
  induction l with
  | nil =>
    intro m c hc
    cases m with
    | none => simp [removeNumGo] at hc
    | some acc =>
      simp only [removeNumGo] at hc
      exact finishRun_no_digit acc [] (by simp) c hc
  | cons a as ih =>
    intro m c hc
    cases m with
    | none =>
      simp only [removeNumGo] at hc
      split at hc
      · exact ih (some [a]) c hc
      · next hw =>
          rcases List.mem_cons.mp hc with h | h
          · subst h
            cases hd : c.isDigit with
            | false => rfl
            | true => exact absurd (digit_isWordChar hd) (by simpa using hw)
          · exact ih none c h
    | some acc =>
      simp only [removeNumGo] at hc
      split at hc
      · exact ih (some (acc ++ [a])) c hc
      · next hw =>
          refine finishRun_no_digit acc (a :: removeNumGo none as) ?_ c hc
          intro x hx
          rcases List.mem_cons.mp hx with h | h
          · subst h
            cases hd : x.isDigit with
            | false => rfl
            | true => exact absurd (digit_isWordChar hd) (by simpa using hw)
          · exact ih none x h

theorem joinSep_mem :
    ∀ (sep : List Char) (ts : List (List Char)) (c : Char),
      c ∈ joinSep sep ts → c ∈ sep ∨ ∃ t ∈ ts, c ∈ t := by
  intro sep ts
  induction ts with
  | nil => intro c hc; simp [joinSep] at hc
  | cons t ts ih =>
    intro c hc
    cases ts with
    | nil =>
      simp only [joinSep] at hc
      exact Or.inr ⟨t, by simp, hc⟩
    | cons t2 ts2 =>
      simp only [joinSep] at hc
      rcases List.mem_append.mp hc with h | h
      · rcases List.mem_append.mp h with h | h
        · exact Or.inr ⟨t, by simp, h⟩
        · exact Or.inl h
      · rcases ih c h with h | ⟨x, hx, hcx⟩
        · exact Or.inl h
        · exact Or.inr ⟨x, List.mem_cons_of_mem _ hx, hcx⟩

theorem splitWGo_mem_chars :
    ∀ (l : List Char) (m : Option (List Char)) (t : List Char),
      t ∈ splitWGo m l →
      ∀ c ∈ t, (∃ acc, m = some acc ∧ c ∈ acc) ∨ c ∈ l := by
  intro l
  induction l with
  | nil =>
    intro m t ht c hc
    cases m with
    | none =>
      simp [splitWGo] at ht
      subst ht
      simp at hc
    | some acc =>
      simp [splitWGo] at ht
      subst ht
      exact Or.inl ⟨_, rfl, hc⟩
  | cons a as ih =>
    intro m t ht c hc
    cases m with
    | none =>
      simp only [splitWGo] at ht
      split at ht
      · rcases ih (some [a]) t ht c hc with ⟨acc, hacc, hin⟩ | hin
        · cases hacc
          simp at hin
          subst hin
          exact Or.inr (List.mem_cons_self _ _)
        · exact Or.inr (List.mem_cons_of_mem _ hin)
      · rcases ih none t ht c hc with ⟨acc, hacc, _⟩ | hin
        · cases hacc
        · exact Or.inr (List.mem_cons_of_mem _ hin)
    | some acc =>
      simp only [splitWGo] at ht
      split at ht
      · rcases ih (some (acc ++ [a])) t ht c hc with ⟨acc', hacc, hin⟩ | hin
        · cases hacc
          rcases List.mem_append.mp hin with h | h
          · exact Or.inl ⟨acc, rfl, h⟩
          · simp at h
            subst h
            exact Or.inr (List.mem_cons_self _ _)
        · exact Or.inr (List.mem_cons_of_mem _ hin)
      · rcases List.mem_cons.mp ht with h | h
        · subst h
          exact Or.inl ⟨_, rfl, hc⟩
        · rcases ih none t h c hc with ⟨acc', hacc, _⟩ | hin
          · cases hacc
          · exact Or.inr (List.mem_cons_of_mem _ hin)

theorem lemmatizer_mem {wl : String → String} {toks : List (List Char)}
    {t : List Char} (h : t ∈ lemmatizer wl toks) :
    ∃ w ∈ toks, t = (wl (String.mk w)).data := by
  rcases List.mem_map.mp h with ⟨w, hwf, rfl⟩
  exact ⟨w, (List.mem_filter.mp hwf).1, rfl⟩

theorem startsWithSeq_mem :
    ∀ (p l : List Char), startsWithSeq p l = true → ∀ c ∈ p, c ∈ l := by
  intro p
  induction p with
  | nil => intro l _ c hc; simp at hc
  | cons a ps ih =>
    intro l h c hc
    match l with
    | [] => simp [startsWithSeq] at h
    | b :: bs =>
      simp only [startsWithSeq, Bool.and_eq_true, beq_iff_eq] at h
      obtain ⟨rfl, h2⟩ := h
      rcases List.mem_cons.mp hc with rfl | hc
      · exact List.mem_cons_self _ _
      · exact List.mem_cons_of_mem _ (ih bs h2 c hc)

theorem containsSeq_mem :
    ∀ (l p : List Char), containsSeq p l = true → ∀ c ∈ p, c ∈ l := by
  intro l
  induction l with
  | nil =>
    intro p h c hc
    match p with
    | [] => simp at hc
    | _ :: _ => simp [containsSeq, startsWithSeq] at h
  | cons b bs ih =>
    intro p h c hc
    simp only [containsSeq, Bool.or_eq_true] at h
    rcases h with h | h
    · exact startsWithSeq_mem p (b :: bs) h c hc
    · exact List.mem_cons_of_mem _ (ih p h c hc)

/-- C4: `clean_text` is deterministic — two calls with the same input string
and the same lemmatization dictionary yield identical output strings (the
stopword set is the fixed constant `nltk_english_stopwords` of the model, so
it is the same in both calls by construction). -/
theorem c4_deterministic :
    ∀ (wl₁ wl₂ : String → String) (s₁ s₂ : String),
      wl₁ = wl₂ → s₁ = s₂ → clean_text wl₁ s₁ = clean_text wl₂ s₂ := by
  intro wl₁ wl₂ s₁ s₂ h1 h2
  subst h1
  subst h2
  rfl

/-- C4 (witness): determinism applied at a concrete input and the identity
lemmatizer. -/
theorem c4_witness :
    clean_text (fun w => w) "the cat" = clean_text (fun w => w) "the cat" :=
  c4_deterministic (fun w => w) (fun w => w) "the cat" "the cat" rfl rfl

/-- C5: for a lemmatization dictionary that maps digit-free words to
digit-free words (as the WordNet lemmatizer does), the output of
`clean_text` contains no digit characters; consequently no
whitespace-delimited run of the input that contains a numeral can appear
among the whitespace-delimited runs of the output.  The digits are removed
by `remove_numbers` (`re.sub('\w*\d\w*', '', ·)` deletes every maximal
word-character run containing a digit, and every digit lies in such a run);
the stages after it never reintroduce one. -/
theorem c5_no_digits :
    ∀ (wl : String → String),
      (∀ w : String, (∀ c ∈ w.data, c.isDigit = false) →
        ∀ c ∈ (wl w).data, c.isDigit = false) →
      ∀ s : String,
        (∀ c ∈ (clean_text wl s).data, c.isDigit = false) ∧
        (∀ t : String, t ∈ wsTokens s → t.data.any Char.isDigit = true →
          t ∉ wsTokens (clean_text wl s)) := by
  intro wl hwl s
  have key : ∀ c ∈ (clean_text wl s).data, c.isDigit = false := by
    intro c hc
    have hc' : c ∈ joinSep [' ']
        (lemmatizer wl (tokenize (remove_new_lines (remove_accent_signs
          (remove_numbers (remove_stopwords (remove_urls
            (remove_between_square_brackets
              ((strip_html s.data).map Char.toLower))))))))) := hc
    rcases joinSep_mem _ _ c hc' with hsep | ⟨t, ht, hct⟩
    · simp at hsep
      subst hsep
      decide
    · rcases lemmatizer_mem ht with ⟨w, hw, rfl⟩
      refine hwl (String.mk w) ?_ c hct
      intro x hx
      have hx' : x ∈ w := hx
      rcases splitWGo_mem_chars _ (some []) w hw x hx' with ⟨acc, hacc, hxa⟩ | hxl
      · cases hacc
        simp at hxa
      · have hx1 := (List.mem_filter.mp hxl).1
        have hx2 := (List.mem_filter.mp hx1).1
        exact removeNumGo_no_digit _ none x hx2
  refine ⟨key, ?_⟩
  intro t hts hdig hmem
  rcases List.mem_map.mp hmem with ⟨t', ht', heq⟩
  rcases List.any_eq_true.mp hdig with ⟨c, hct, hcd⟩
  have hdata : t.data = t' := by rw [← heq]
  rw [hdata] at hct
  obtain ⟨u, v, huv⟩ := splitWsGo_mem_parts (clean_text wl s).data none t' ht'
  simp only [Option.getD_none, List.nil_append] at huv
  have hcin : c ∈ (clean_text wl s).data := by
    rw [huv]
    exact List.mem_append.mpr (Or.inl (List.mem_append.mpr (Or.inr hct)))
  have := key c hcin
  rw [this] at hcd
  exact Bool.false_ne_true hcd

/-- C5 (witness): the digit-freeness theorem applied at the identity
lemmatizer and the input "ab 12cd", whose cleaned form evaluates to
"ab " (the run "12cd" is gone and no digit survives). -/
theorem c5_witness :
    ((∀ c ∈ (clean_text (fun w => w) "ab 12cd").data, c.isDigit = false) ∧
      (∀ t : String, t ∈ wsTokens "ab 12cd" → t.data.any Char.isDigit = true →
        t ∉ wsTokens (clean_text (fun w => w) "ab 12cd"))) ∧
    clean_text (fun w => w) "ab 12cd" = "ab " :=
  ⟨c5_no_digits (fun w => w) (fun _ h => h) "ab 12cd", by decide⟩

/-- C6: for a lemmatization dictionary that never emits an opening square
bracket (as the WordNet lemmatizer does), a bracketed span `[...]`
(brackets inclusive) occurring in the input is absent from the output of
`clean_text`: the output is a space-joined sequence of `\W+`-split tokens,
so it cannot contain `[` at all. -/
theorem c6_bracket_span_removed :
    ∀ (wl : String → String),
      (∀ w : String, '[' ∉ (wl w).data) →
      ∀ (s : String) (mid : List Char),
        containsSeq ('[' :: mid ++ [']']) s.data = true →
        containsSeq ('[' :: mid ++ [']']) (clean_text wl s).data = false := by
  intro wl hwl s mid _hin
  cases h : containsSeq ('[' :: mid ++ [']']) (clean_text wl s).data with
  | false => rfl
  | true =>
    exfalso
    have hbr : '[' ∈ (clean_text wl s).data :=
      containsSeq_mem _ _ h '[' (by simp)
    have hbr' : '[' ∈ joinSep [' ']
        (lemmatizer wl (tokenize (remove_new_lines (remove_accent_signs
          (remove_numbers (remove_stopwords (remove_urls
            (remove_between_square_brackets
              ((strip_html s.data).map Char.toLower))))))))) := hbr
    rcases joinSep_mem _ _ '[' hbr' with hsep | ⟨t, ht, hct⟩
    · simp at hsep
    · rcases lemmatizer_mem ht with ⟨w, _, rfl⟩
      exact hwl (String.mk w) hct

/-- C6 (witness): the theorem applied at the input "a [b] c" with span
"[b]", using a lemmatizer that filters out `[` (the identity on every
bracket-free word). -/
theorem c6_witness :
    containsSeq ('[' :: "b".data ++ [']']) "a [b] c".data = true ∧
    containsSeq ('[' :: "b".data ++ [']'])
      (clean_text (fun w => String.mk (w.data.filter (fun c => !(c == '['))))
        "a [b] c").data = false :=
  ⟨by decide,
    c6_bracket_span_removed _ (by intro w h; simp at h) "a [b] c" "b".data
      (by decide)⟩

/-- C8: `clean_text` is not idempotent.  At the input "%% dog" the token
"%%" survives the stopword test (it is not a stopword) but is reduced to the
empty token by punctuation replacement, so the cleaned output is " dog" with
a leading space; cleaning that output again yields "dog".  The statement
holds for every lemmatization dictionary that agrees with the WordNet
lemmatizer on the two tokens involved ("dog" and the empty string). -/
theorem c8_not_idempotent :
    ∀ wl : String → String, wl "dog" = "dog" → wl "" = "" →
      clean_text wl (clean_text wl "%% dog") ≠ clean_text wl "%% dog" := by
  intro wl h1 h2
  have e1 : clean_text wl "%% dog" =
      String.mk ((wl "").data ++ [' '] ++ (wl "dog").data) := rfl
  rw [h1, h2] at e1
  have e1' : clean_text wl "%% dog" = " dog" := by rw [e1]; rfl
  have e2 : clean_text wl " dog" = String.mk ((wl "dog").data) := rfl
  rw [h1] at e2
  have e2' : clean_text wl " dog" = "dog" := by rw [e2]
  rw [e1', e2']
  decide

/-- C8 (witness): the non-idempotence theorem applied at the identity
lemmatizer. -/
theorem c8_witness :
    clean_text (fun w => w) (clean_text (fun w => w) "%% dog") ≠
      clean_text (fun w => w) "%% dog" :=
  c8_not_idempotent (fun w => w) rfl rfl

/-- C9: the output of `clean_text` is not always a single-space join of
nonempty tokens: at the input "## cat" the token "##" becomes the empty
string inside `remove_stopwords`, the `\W+` tokenization then yields an
empty boundary token, the empty token is not a stopword and survives
lemmatization, and the final join produces the output " cat", whose first
character is a space.  Holds for every lemmatization dictionary agreeing
with WordNet on "cat" and "". -/
theorem c9_boundary_space :
    ∀ wl : String → String, wl "cat" = "cat" → wl "" = "" →
      (clean_text wl "## cat").data.head? = some ' ' := by
  intro wl h1 h2
  have e1 : clean_text wl "## cat" =
      String.mk ((wl "").data ++ [' '] ++ (wl "cat").data) := rfl
  rw [h1, h2] at e1
  have e1' : clean_text wl "## cat" = " cat" := by rw [e1]; rfl
  rw [e1']
  rfl

/-- C9 (witness): the boundary-space theorem applied at the identity
lemmatizer. -/
theorem c9_witness :
    (clean_text (fun w => w) "## cat").data.head? = some ' ' :=
  c9_boundary_space (fun w => w) rfl rfl

theorem train_test_split_perm (rows : List Row) :
    ((train_test_split rows).1 ++ (train_test_split rows).2).Perm rows := by
  simp only [train_test_split]
  have key : ∀ (O Z : List Row) (k1 k0 : Nat),
      ((O.take k1 ++ Z.take k0) ++ (O.drop k1 ++ Z.drop k0)).Perm (O ++ Z) := by
    intro O Z k1 k0
    have h2 : (Z.take k0 ++ (O.drop k1 ++ Z.drop k0)).Perm
        (O.drop k1 ++ (Z.take k0 ++ Z.drop k0)) :=
      List.perm_append_comm_assoc _ _ _
    have h3 : ((O.take k1 ++ Z.take k0) ++ (O.drop k1 ++ Z.drop k0)).Perm
        (O.take k1 ++ (O.drop k1 ++ (Z.take k0 ++ Z.drop k0))) := by
      rw [List.append_assoc]
      exact List.Perm.append_left _ h2
    have h4 : O.take k1 ++ (O.drop k1 ++ (Z.take k0 ++ Z.drop k0)) = O ++ Z := by
      rw [← List.append_assoc, List.take_append_drop, List.take_append_drop]
    rw [h4] at h3
    exact h3
  exact (key _ _ _ _).trans (List.filter_append_perm _ rows)

/-- C1 (counterexample): the claim that an unsupported selector makes both
`create_model` and `Vectorize.__init__` raise before any data is processed
is false on the code.  `create_model` has no `else` branch: at the
unsupported selector it returns `None` instead of raising.  And in a run
with an unsupported vectorizer selector, the `RuntimeError` of
`Vectorize.__init__` is only raised during `fit` (the `vectorize` property),
after both CSVs have been read, the corpus sampled and cleaned, and the
train/test split constructed. -/
theorem c1_counterexample :
    create_model ModelSel.badSel = none ∧
    (run_model_steps VectorizerSel.badSel ModelSel.nb).2 =
      some "Unable to determine the vectorizer type." ∧
    Step.readCsvTrue ∈ (run_model_steps VectorizerSel.badSel ModelSel.nb).1 ∧
    Step.sampleStep ∈ (run_model_steps VectorizerSel.badSel ModelSel.nb).1 ∧
    Step.splitStep ∈ (run_model_steps VectorizerSel.badSel ModelSel.nb).1 := by
  decide

/-- C1 (amended): an unsupported vectorizer or model selector still makes
the run abort with an error before the model is ever fit, but only after
CSV loading and sampling have occurred, not before — and the two failures
differ.  An unsupported model selector aborts with the `AttributeError` of
looking up `fit` on the `None` that `create_model` returned; Python
resolves that callee before evaluating the call's arguments, so this
happens before `TrainTestSplit` or `Vectorize` is built (and thus also when
both selectors are unsupported: the vectorizer `RuntimeError` never fires).
An unsupported vectorizer selector with a supported model aborts with the
`RuntimeError` of `Vectorize.__init__`, after the train/test split has been
constructed inside the `vectorize` property. -/
theorem c1_amended :
    ∀ (vt : VectorizerSel) (mt : ModelSel),
      vt = VectorizerSel.badSel ∨ mt = ModelSel.badSel →
      (run_model_steps vt mt).2.isSome = true ∧
      Step.fitStep ∉ (run_model_steps vt mt).1 ∧
      Step.readCsvTrue ∈ (run_model_steps vt mt).1 ∧
      Step.sampleStep ∈ (run_model_steps vt mt).1 ∧
      (mt = ModelSel.badSel →
        Step.splitStep ∉ (run_model_steps vt mt).1 ∧
        Step.vectorizeStep ∉ (run_model_steps vt mt).1 ∧
        (run_model_steps vt mt).2 =
          some "AttributeError: NoneType object has no attribute fit") ∧
      (vt = VectorizerSel.badSel → mt ≠ ModelSel.badSel →
        Step.splitStep ∈ (run_model_steps vt mt).1 ∧
        (run_model_steps vt mt).2 =
          some "Unable to determine the vectorizer type.") := by
  intro vt mt h
  cases vt <;> cases mt <;> revert h <;> decide

/-- C1 (witness): the amended theorem at the unsupported vectorizer
selector with the Naive Bayes model selector. -/
theorem c1_witness :
    (VectorizerSel.badSel = VectorizerSel.badSel ∨
      ModelSel.nb = ModelSel.badSel) ∧
    ((run_model_steps VectorizerSel.badSel ModelSel.nb).2.isSome = true ∧
      Step.fitStep ∉ (run_model_steps VectorizerSel.badSel ModelSel.nb).1 ∧
      Step.readCsvTrue ∈ (run_model_steps VectorizerSel.badSel ModelSel.nb).1 ∧
      Step.sampleStep ∈ (run_model_steps VectorizerSel.badSel ModelSel.nb).1 ∧
      (ModelSel.nb = ModelSel.badSel →
        Step.splitStep ∉ (run_model_steps VectorizerSel.badSel ModelSel.nb).1 ∧
        Step.vectorizeStep ∉
          (run_model_steps VectorizerSel.badSel ModelSel.nb).1 ∧
        (run_model_steps VectorizerSel.badSel ModelSel.nb).2 =
          some "AttributeError: NoneType object has no attribute fit") ∧
      (VectorizerSel.badSel = VectorizerSel.badSel →
        ModelSel.nb ≠ ModelSel.badSel →
        Step.splitStep ∈ (run_model_steps VectorizerSel.badSel ModelSel.nb).1 ∧
        (run_model_steps VectorizerSel.badSel ModelSel.nb).2 =
          some "Unable to determine the vectorizer type.")) :=
  ⟨Or.inl rfl, c1_amended VectorizerSel.badSel ModelSel.nb (Or.inl rfl)⟩

/-- C3 (counterexample): the end-to-end run is not a deterministic function
of the input corpora, the sample size and the seed, because the assembly
shuffle `df.sample(frac=1)` carries no `random_state`: it draws a fresh
permutation from the ambient random state on each call.  Two executions
that draw different (valid) permutations — here the identity and the
reversal, the latter a permutation of the assembled dataframe — sample
different rows, with different label multisets, so everything downstream
(split, training, accuracy) differs. -/
theorem c3_counterexample :
    (create_data_frame ["a", "b"] ["c", "d"] (fun l => l) 2).map Row.category
      = [1, 1] ∧
    (create_data_frame ["a", "b"] ["c", "d"] (fun l => l.reverse) 2).map
      Row.category = [0, 0] ∧
    create_data_frame ["a", "b"] ["c", "d"] (fun l => l) 2 ≠
      create_data_frame ["a", "b"] ["c", "d"] (fun l => l.reverse) 2 ∧
    ((assemble_df ["a", "b"] ["c", "d"]).reverse).Perm
      (assemble_df ["a", "b"] ["c", "d"]) :=
  ⟨by decide, by decide, by decide, List.reverse_perm _⟩

/-- C3 (amended): the run is deterministic once the shuffle draw is counted
among the inputs — two executions over the same corpora and sample size
that draw the same shuffle permutation produce the same sampled dataframe
and the same (seeded, `random_state=19`) train/test split, hence the same
accuracy; only the unseeded assembly shuffle breaks end-to-end
reproducibility. -/
theorem c3_amended :
    ∀ (trueTexts fakeTexts : List String) (n : Nat)
      (s₁ s₂ : List Row → List Row),
      (∀ l, s₁ l = s₂ l) →
      create_data_frame trueTexts fakeTexts s₁ n =
        create_data_frame trueTexts fakeTexts s₂ n ∧
      train_test_split (create_data_frame trueTexts fakeTexts s₁ n) =
        train_test_split (create_data_frame trueTexts fakeTexts s₂ n) := by
  intro T F n s₁ s₂ h
  have hdf : create_data_frame T F s₁ n = create_data_frame T F s₂ n := by
    unfold create_data_frame
    rw [h (assemble_df T F)]
  exact ⟨hdf, by rw [hdf]⟩

/-- C3 (witness): the amended determinism theorem at a concrete corpus and
two executions drawing the same permutation. -/
theorem c3_witness :
    create_data_frame ["a"] ["b"] (fun l => l) 1 =
      create_data_frame ["a"] ["b"] (fun l => l) 1 ∧
    train_test_split (create_data_frame ["a"] ["b"] (fun l => l) 1) =
      train_test_split (create_data_frame ["a"] ["b"] (fun l => l) 1) :=
  c3_amended ["a"] ["b"] 1 (fun l => l) (fun l => l) (fun _ => rfl)

/-- C7: after assembly and splitting, every row carries exactly one label
(the single `category` field), each label is 0 or 1 — the assembled
dataframe labels the genuine corpus 1 and the fabricated corpus 0 row for
row — and the train/test split is an exact partition: train and test
concatenated are a permutation of the sampled corpus (so they are disjoint
as a multiset split and cover it).  The shuffle is assumed to be a
permutation, which `df.sample(frac=1)` always is. -/
theorem c7_labels_and_partition :
    ∀ (trueTexts fakeTexts : List String) (n : Nat)
      (shuffle : List Row → List Row),
      (∀ l, (shuffle l).Perm l) →
      (∀ r ∈ create_data_frame trueTexts fakeTexts shuffle n,
        r.category = 0 ∨ r.category = 1) ∧
      (assemble_df trueTexts fakeTexts).map Row.category =
        List.replicate trueTexts.length 1 ++
          List.replicate fakeTexts.length 0 ∧
      ((train_test_split (create_data_frame trueTexts fakeTexts shuffle n)).1 ++
        (train_test_split (create_data_frame trueTexts fakeTexts shuffle n)).2).Perm
        (create_data_frame trueTexts fakeTexts shuffle n) := by
  intro T F n shuffle hs
  refine ⟨?_, ?_, train_test_split_perm _⟩
  · intro r hr
    have hr1 : r ∈ shuffle (assemble_df T F) := List.mem_of_mem_take hr
    have hr2 : r ∈ assemble_df T F := (hs _).mem_iff.mp hr1
    rcases List.mem_append.mp hr2 with h | h
    · rcases List.mem_map.mp h with ⟨t, _, rfl⟩
      exact Or.inr rfl
    · rcases List.mem_map.mp h with ⟨t, _, rfl⟩
      exact Or.inl rfl
  · have hT : ∀ L : List String,
        (L.map (fun t => (⟨t, 1⟩ : Row))).map Row.category =
          List.replicate L.length 1 := by
      intro L
      induction L with
      | nil => rfl
      | cons a L ih => simp [ih, List.replicate_succ]
    have hF : ∀ L : List String,
        (L.map (fun t => (⟨t, 0⟩ : Row))).map Row.category =
          List.replicate L.length 0 := by
      intro L
      induction L with
      | nil => rfl
      | cons a L ih => simp [ih, List.replicate_succ]
    simp only [assemble_df, List.map_append, hT, hF]

/-- C7 (witness): the invariant theorem at a concrete two-document corpus
with the identity shuffle. -/
theorem c7_witness :
    (∀ r ∈ create_data_frame ["g"] ["f"] (fun l => l) 2,
      r.category = 0 ∨ r.category = 1) ∧
    (assemble_df ["g"] ["f"]).map Row.category =
      List.replicate (["g"] : List String).length 1 ++
        List.replicate (["f"] : List String).length 0 ∧
    ((train_test_split (create_data_frame ["g"] ["f"] (fun l => l) 2)).1 ++
      (train_test_split (create_data_frame ["g"] ["f"] (fun l => l) 2)).2).Perm
      (create_data_frame ["g"] ["f"] (fun l => l) 2) :=
  c7_labels_and_partition ["g"] ["f"] 2 (fun l => l) (fun l => List.Perm.refl l)

/-- C10: the sampled corpus is fixed at the first access of the `df`
property.  The caching property (first conjunct) says a second property
access after any access returns the very same dataframe and leaves the
state unchanged — in particular no further shuffle is drawn.  The second
conjunct instantiates this for one `Model.run()`: the dataframe seen by
`cleanup_text` and the one seen by `TrainTestSplit` (inside the `vectorize`
property that `fit` triggers) are the same single sample, even though
`pre_processor`'s discarded direct `create_data_frame()` call consumed an
extra draw beforehand.  The third conjunct: an access on a warm cache
consumes no randomness. -/
theorem c10_df_cached :
    ∀ (trueTexts fakeTexts : List String) (n : Nat)
      (shuffles : Nat → List Row → List Row),
      (∀ st : TPState,
        df_get trueTexts fakeTexts n shuffles
            (df_get trueTexts fakeTexts n shuffles st).2 =
          ((df_get trueTexts fakeTexts n shuffles st).1,
            (df_get trueTexts fakeTexts n shuffles st).2)) ∧
      (run_df_accesses trueTexts fakeTexts n shuffles).1 =
        (run_df_accesses trueTexts fakeTexts n shuffles).2.1 ∧
      (∀ (d : List Row) (k : Nat),
        (df_get trueTexts fakeTexts n shuffles ⟨some d, k⟩).2.draws = k) := by
  intro T F n sh
  refine ⟨?_, rfl, ?_⟩
  · intro st
    cases st with
    | mk c k => cases c <;> rfl
  · intro d k
    rfl
